import Mathlib

/-!
Verification of the cross-section takeoff core (`src/xstakeoff`): the
station locator and section framer of `cli.py`, and the polyline
reconstructor of `pdf_extract.py`.  Coordinates are embedded as exact
rationals; Euclidean distances land in `ℝ` via `Real.sqrt`, while every
comparison the algorithms perform on distances is carried out on squared
rational distances, which is equivalent under exact arithmetic.
-/

namespace XsTakeoff

/-- A point in page space: `Point = Tuple[float, float]` in the source,
embedded with exact rational coordinates. -/
abbrev Point : Type := ℚ × ℚ

/-- Source `Polyline = List[Point]`. -/
abbrev Polyline : Type := List Point

/-- A raw segment: an ordered pair of points. -/
abbrev Segment : Type := Point × Point

/-- Squared Euclidean distance (rational, executable). -/
def distSq (a b : Point) : ℚ :=
  (a.1 - b.1) ^ 2 + (a.2 - b.2) ^ 2

/-- Source `_dist(a, b) = math.hypot(a[0]-b[0], a[1]-b[1])`. -/
noncomputable def _dist (a b : Point) : ℝ :=
  Real.sqrt (distSq a b)

/-- The executable comparison `_dist a b <= t`, phrased on squared
distances. -/
def distLe (a b : Point) (t : ℚ) : Bool :=
  decide (0 ≤ t) && decide (distSq a b ≤ t ^ 2)

/-- Source `_polyline_length(poly) = sum(_dist(poly[i-1], poly[i]) for i in
range(1, len(poly)))`. -/
noncomputable def _polyline_length : Polyline → ℝ
  | a :: b :: rest => _dist a b + _polyline_length (b :: rest)
  | _ => 0

/-- Python's built-in `round` applied to an exact value: round half to
even. -/
def roundHalfEven (q : ℚ) : ℤ :=
  if q - ⌊q⌋ < 1 / 2 then ⌊q⌋
  else if 1 / 2 < q - ⌊q⌋ then ⌊q⌋ + 1
  else if 2 ∣ ⌊q⌋ then ⌊q⌋ else ⌊q⌋ + 1

/-- Source `_round_point(p, tol) = (round(p[0]/tol)*tol, round(p[1]/tol)*tol)`. -/
def _round_point (p : Point) (tol : ℚ) : Point :=
  ((roundHalfEven (p.1 / tol) : ℚ) * tol, (roundHalfEven (p.2 / tol) : ℚ) * tol)

/-- An axis-aligned rectangle `(x0, y0, x1, y1)` in page coordinates, as the
spec's data model describes the external `fitz.Rect` (`x0 ≤ x1`, `y0 ≤ y1`
for well-formed rectangles; degenerate values are representable). -/
structure Rect where
  x0 : ℚ
  y0 : ℚ
  x1 : ℚ
  y1 : ℚ
deriving DecidableEq, Repr

/-- The rectangle width `Rect.width` (clamped at zero, as for the external rectangle type). -/
def Rect.width (r : Rect) : ℚ := max 0 (r.x1 - r.x0)

/-- The rectangle height `Rect.height` (clamped at zero). -/
def Rect.height (r : Rect) : ℚ := max 0 (r.y1 - r.y0)

/-- The rectangle area `Rect.get_area()`. -/
def Rect.get_area (r : Rect) : ℚ := r.width * r.height

/-- Rectangle intersection `prev & fr`: componentwise max/min. -/
def Rect.inter (r s : Rect) : Rect :=
  ⟨max r.x0 s.x0, max r.y0 s.y0, min r.x1 s.x1, min r.y1 s.y1⟩

/-- Rectangle union `prev | fr`: the smallest rectangle containing both. -/
def Rect.union (r s : Rect) : Rect :=
  ⟨min r.x0 s.x0, min r.y0 s.y0, max r.x1 s.x1, max r.y1 s.y1⟩

/-- Truthiness of a rectangle in the guard `if overlap and ...`: the
intersection counts only when it is non-empty. -/
def Rect.nonEmpty (r : Rect) : Bool :=
  decide (r.x0 < r.x1) && decide (r.y0 < r.y1)

/-- The test `drect.intersects(rect)`: the two rectangles share a non-empty
intersection. -/
def Rect.intersects (r s : Rect) : Bool := (r.inter s).nonEmpty

/-- One path item of a drawing, as the two accepted encodings per kind:
`("l", x1, y1, x2, y2)`, `("l", p1, p2)`, `("c", x1..y4)` (8 scalars),
`("c", p1, p2, p3, p4)`; `lBad`/`cBad` stand for a line/curve item with an
unrecognized field count, `other` for any other kind tag. -/
inductive PathItem where
  | l5 (x1 y1 x2 y2 : ℚ)
  | l3 (p1 p2 : Point)
  | lBad
  | c9 (x1 y1 x2 y2 x3 y3 x4 y4 : ℚ)
  | c5 (p1 p2 p3 p4 : Point)
  | cBad
  | other
deriving DecidableEq, Repr

/-- One drawing object: an optional bounding rectangle (`d.get("rect")`)
and its ordered path items. -/
structure Drawing where
  rect : Option Rect
  items : List PathItem
deriving DecidableEq, Repr

/-- The segments one path item contributes: a line's two endpoints, or a
curve's first and fourth control points; malformed or unknown items are
skipped (`continue`). -/
def segmentsOfItem : PathItem → List Segment
  | .l5 x1 y1 x2 y2 => [((x1, y1), (x2, y2))]
  | .l3 p1 p2 => [(p1, p2)]
  | .c9 x1 y1 _ _ _ _ x4 y4 => [((x1, y1), (x4, y4))]
  | .c5 p1 _ _ p4 => [(p1, p4)]
  | _ => []

/-- Step 1 of `extract_merged_polylines_in_rect`: collect, in drawing and
item order, the segments of every drawing whose rectangle exists and
intersects the region; drawings without a rectangle are skipped. -/
def collectSegments (drawings : List Drawing) (rect : Rect) : List Segment :=
  drawings.flatMap fun d =>
    match d.rect with
    | none => []
    | some dr => if dr.intersects rect then d.items.flatMap segmentsOfItem else []

/-- The list of candidate segment indices the endpoint index holds under
bucket `key`: for each segment index in ascending order, an entry for its
first endpoint and then one for its second, matching the insertion order
of the Python `defaultdict(list)`. -/
def bucketList (segments : List Segment) (tol : ℚ) (key : Point) : List ℕ :=
  ((List.range segments.length).map fun i =>
    (if _round_point (segments.getD i default).1 tol = key then [i] else []) ++
    (if _round_point (segments.getD i default).2 tol = key then [i] else [])).flatten

/-- Source `next_connected(current)`: the first still-unused candidate stored under
the quantized bucket of the current point. -/
def next_connected (segments : List Segment) (tol : ℚ) (unused : List ℕ)
    (current : Point) : Option ℕ :=
  (bucketList segments tol (_round_point current tol)).find? fun i =>
    decide (i ∈ unused)

/-- The chain-growth loop body (used forward from the seed's second endpoint
and backward from its first): repeatedly take the first unused candidate in
the current point's bucket, consume it, and if one of its endpoints lies
within `tol` of the current point append the other endpoint and advance;
stop when no candidate exists or neither endpoint is in tolerance (in the
latter case the candidate stays consumed).  Returns the appended points and
the remaining unused indices.  The fuel argument starts at
`unused.length`; each recursive call erases one element of `unused`, so the
fuel never runs out before `unused` is exhausted. -/
def growChainAux (segments : List Segment) (tol : ℚ) :
    ℕ → List ℕ → Point → Polyline × List ℕ
  | 0, unused, _ => ([], unused)
  | fuel + 1, unused, cur =>
    match next_connected segments tol unused cur with
    | none => ([], unused)
    | some nxt =>
      let rest := unused.erase nxt
      let s := segments.getD nxt default
      if distLe cur s.1 tol then
        let r := growChainAux segments tol fuel rest s.2
        (s.2 :: r.1, r.2)
      else if distLe cur s.2 tol then
        let r := growChainAux segments tol fuel rest s.1
        (s.1 :: r.1, r.2)
      else ([], rest)

/-- The chain-growth loop, with its fuel fixed at `unused.length`. -/
def growChain (segments : List Segment) (tol : ℚ) (unused : List ℕ)
    (cur : Point) : Polyline × List ℕ :=
  growChainAux segments tol unused.length unused cur

/-- One iteration of the `while unused:` loop: consume the seed segment
`(a0, b0)`, grow `chain = [a0, b0] ++ …` forward from `b0`, grow the
prepend list `[a0] ++ …` backward from `a0`, and emit
`list(reversed(prepend))[:-1] + chain`. -/
def mergeSeed (segments : List Segment) (tol : ℚ) (unused : List ℕ)
    (seed : ℕ) : Polyline × List ℕ :=
  let u0 := unused.erase seed
  let s := segments.getD seed default
  let f := growChain segments tol u0 s.2
  let chain := s.1 :: s.2 :: f.1
  let bk := growChain segments tol f.2 s.1
  ((s.1 :: bk.1).reverse.dropLast ++ chain, bk.2)

/-- The `while unused:` loop.  `next(iter(unused))` is modelled as the
smallest unused index, which is CPython's set iteration order for the
small sets of consecutive small integers arising here; `unused` is kept as
an ascending list, so the seed is its head.  The source appends a merged
sequence to the output only when it passes the length filter; the filter
does not affect the loop state, so the embedding collects every merged
sequence in seed order and `extract_merged_polylines_in_rect` filters
afterwards.  The fuel argument starts at `unused.length`, which the loop
never exhausts since every iteration removes at least the seed. -/
def mergeAllAux (segments : List Segment) (tol : ℚ) :
    ℕ → List ℕ → List Polyline
  | 0, _ => []
  | _, [] => []
  | fuel + 1, seed :: rest =>
    let r := mergeSeed segments tol (seed :: rest) seed
    r.1 :: mergeAllAux segments tol fuel r.2

/-- The chain-merging loop over all collected segments. -/
def mergeAll (segments : List Segment) (tol : ℚ) (unused : List ℕ) :
    List Polyline :=
  mergeAllAux segments tol unused.length unused

/-- Source `extract_merged_polylines_in_rect(page, rect, endpoint_tol, min_length)`:
collect segments from drawings intersecting `rect` (the page is embedded as
its drawing list); if none, return `[]`; otherwise merge chains, keep the
merged sequences whose length is at least `min_length`, and sort them by
length, longest first (`list.sort` is stable, and `reverse=True` reverses
the comparison, not the list). -/
noncomputable def extract_merged_polylines_in_rect (drawings : List Drawing)
    (rect : Rect) (endpoint_tol min_length : ℚ) : List Polyline :=
  let segments := collectSegments drawings rect
  if segments.isEmpty then [] else
  ((mergeAll segments endpoint_tol (List.range segments.length)).filter fun p =>
      @decide ((min_length : ℝ) ≤ _polyline_length p)
        (Classical.propDecidable _)).mergeSort fun p q =>
    @decide (_polyline_length q ≤ _polyline_length p) (Classical.propDecidable _)

/-- A word token from the word-extraction service, as returned by
`page.get_text("words")`: `(x0, y0, x1, y1, text)`. -/
structure Word where
  x0 : ℚ
  y0 : ℚ
  x1 : ℚ
  y1 : ℚ
  text : List Char
deriving DecidableEq, Repr

/-- A word character of the regex class `\w` (ASCII range): letter, digit
or underscore. -/
def isWordChar (c : Char) : Bool := c.isAlphanum || c == '_'

/-- Source `STATION_RE.match(text)` for the compiled station pattern:
`re.match` anchors at the start of the token.  The pattern is fixed-width
with no alternatives, so it matches exactly when the token starts with
three digits, `+`, two digits (the leading `\b` holds automatically before
a digit) and the trailing `\b` holds: the token either ends there or
continues with a non-word character. -/
def stationMatch : List Char → Bool
  | d1 :: d2 :: d3 :: p :: d4 :: d5 :: rest =>
    d1.isDigit && d2.isDigit && d3.isDigit && (p == '+') &&
    d4.isDigit && d5.isDigit &&
    (match rest with
     | [] => true
     | c :: _ => !(isWordChar c))
  | _ => false

/-- Modelled from the spec: the matching the spec ascribes to the station
locator — the pattern `\d{3}\+\d{2}` "anchored at the start of the token"
and nothing more, so any continuation after the five matched characters is
accepted. -/
def specStationMatch : List Char → Bool
  | d1 :: d2 :: d3 :: p :: d4 :: d5 :: _ =>
    d1.isDigit && d2.isDigit && d3.isDigit && (p == '+') &&
    d4.isDigit && d5.isDigit
  | _ => false

/-- Source `find_station_text(page, clip)`: the clip region's words (the word
service is embedded as the token list it returns) filtered by
`STATION_RE.match`, each paired with its bounding rectangle, in scan
order. -/
def find_station_text (words : List Word) : List (List Char × Rect) :=
  (words.filter fun w => stationMatch w.text).map fun w =>
    (w.text, ⟨w.x0, w.y0, w.x1, w.y1⟩)

/-- Consecutive deltas `[ys[i+1] - ys[i] for i in range(len(ys) - 1)]`. -/
def deltasOf (ys : List ℚ) : List ℚ :=
  (ys.zip ys.tail).map fun ab => ab.2 - ab.1

/-- Step 3 of `detect_section_frames`: the section height —
`max(200, sorted(deltas)[len(deltas)//2] * 0.9)` when at least one delta
exists, else `page_height / 3`. -/
def sectionHeightOf (deltas : List ℚ) (pageHeight : ℚ) : ℚ :=
  if deltas.isEmpty then pageHeight / 3
  else
    let ds := deltas.mergeSort fun a b => decide (a ≤ b)
    max 200 (ds.getD (ds.length / 2) 0 * (9 / 10))

/-- Step 4 of `detect_section_frames`: the frame around one station hit —
vertically centered on the hit's midpoint, of height `sectionH`, clamped
to the page; fixed 3% left and 2% right margins. -/
def frameFor (pageWidth pageHeight sectionH : ℚ) (r : Rect) : Rect :=
  let yc := (r.y0 + r.y1) / 2
  ⟨pageWidth * (3 / 100), max 0 (yc - sectionH / 2),
   pageWidth - pageWidth * (2 / 100), min pageHeight (yc + sectionH / 2)⟩

/-- One step of the dedup walk (step 5 of `detect_section_frames`): merge
`fr` into the previous kept frame when their intersection is non-empty and
its area exceeds 40% of the smaller frame's area (the kept frame becomes
the rectangle union); otherwise append `fr` as a new distinct frame. -/
def dedupStep (merged : List Rect) (fr : Rect) : List Rect :=
  match merged.getLast? with
  | none => [fr]
  | some prev =>
    let ov := prev.inter fr
    if ov.nonEmpty && decide (2 / 5 * min prev.get_area fr.get_area < ov.get_area)
    then merged.dropLast ++ [prev.union fr]
    else merged ++ [fr]

/-- Step 5 of `detect_section_frames`: walk the frames sorted by top
coordinate, deduplicating heavily overlapping ones. -/
def dedupFrames (frames : List Rect) : List Rect :=
  frames.foldl dedupStep []

/-- Source `detect_section_frames(page)`: the page is embedded as its dimensions
and word list.  Find all station hits, sort them top-to-bottom by `y0`
(Python's `sorted` is stable), infer the section height from the median
`y0` delta, build one frame per hit, sort the frames by top coordinate and
deduplicate. -/
def detect_section_frames (pageWidth pageHeight : ℚ) (words : List Word) :
    List Rect :=
  let station_hits := find_station_text words
  if station_hits.isEmpty then []
  else
    let sortedHits := station_hits.mergeSort fun a b => decide (a.2.y0 ≤ b.2.y0)
    let ys := sortedHits.map fun h => h.2.y0
    let section_h := sectionHeightOf (deltasOf ys) pageHeight
    let frames := sortedHits.map fun h =>
      frameFor pageWidth pageHeight section_h h.2
    let frames_sorted := frames.mergeSort fun a b => decide (a.y0 ≤ b.y0)
    dedupFrames frames_sorted

/-- The relation between consecutive points of a merged polyline and the
collected segments: the pair `(p, q)` is a collected segment (or its
reverse) taken exactly — the seed case — or one of its points is a segment
endpoint taken exactly while the other is within `endpoint_tol` of the
segment's other endpoint — the chain-growth case. -/
def pairFromSegment (segments : List Segment) (tol : ℚ) (p q : Point) : Prop :=
  ∃ s ∈ segments,
    (p = s.1 ∧ q = s.2) ∨ (p = s.2 ∧ q = s.1) ∨
    (distLe p s.1 tol ∧ q = s.2) ∨ (distLe p s.2 tol ∧ q = s.1) ∨
    (distLe q s.1 tol ∧ p = s.2) ∨ (distLe q s.2 tol ∧ p = s.1)

/-- A region rectangle comfortably containing all example drawings. -/
def regionWide : Rect := ⟨-100, -100, 100, 100⟩

/-- The merge-closure example input: one drawing holding the two line items
`((0,0),(10,0))` and `((10,0.5),(20,0))`. -/
def drawingsMergeClosure : List Drawing :=
  [⟨some ⟨0, 0, 20, 1⟩, [.l5 0 0 10 0, .l5 10 (1/2) 20 0]⟩]

/-- A closed square loop of four exactly-adjacent segments. -/
def drawingsLoop : List Drawing :=
  [⟨some ⟨0, 0, 10, 10⟩,
    [.l5 0 0 10 0, .l5 10 0 10 10, .l5 10 10 0 10, .l5 0 10 0 0]⟩]

/-- The consumed-segment example input: the second segment's first endpoint
shares the quantized bucket of the first segment's far end `(1,1)` under
`endpoint_tol = 2`, but both its endpoints are farther than the tolerance
from it. -/
def drawingsConsumed : List Drawing :=
  [⟨some ⟨-20, -20, 20, 20⟩, [.l5 10 0 1 1, .l5 (-1) (-1) (-10) (-20)]⟩]

/-- A single-segment drawing. -/
def drawingsSingle : List Drawing := [⟨some ⟨0, 0, 10, 10⟩, [.l5 0 0 10 0]⟩]

/-! ## Theorems -/

/-- The squared distance is nonnegative. -/
theorem distSq_nonneg (a b : Point) : 0 ≤ distSq a b :=
  add_nonneg (sq_nonneg _) (sq_nonneg _)

/-- The executable comparison `distLe` agrees with the comparison
`_dist a b ≤ t` the source performs on real distances. -/
theorem distLe_iff (a b : Point) (t : ℚ) :
    distLe a b t = true ↔ _dist a b ≤ (t : ℝ) := by
  rw [distLe, Bool.and_eq_true, decide_eq_true_eq, decide_eq_true_eq, _dist,
    Real.sqrt_le_iff]
  constructor
  · rintro ⟨h0, h1⟩
    exact ⟨by exact_mod_cast h0, by exact_mod_cast h1⟩
  · rintro ⟨h0, h1⟩
    exact ⟨by exact_mod_cast h0, by exact_mod_cast h1⟩

/-- Polyline lengths are sums of distances, hence nonnegative. -/
theorem _polyline_length_nonneg : ∀ p : Polyline, 0 ≤ _polyline_length p
  | [] => le_refl 0
  | [_] => le_refl 0
  | a :: b :: rest => by
    have ih := _polyline_length_nonneg (b :: rest)
    have h : 0 ≤ _dist a b := Real.sqrt_nonneg _
    calc (0 : ℝ) ≤ _dist a b + _polyline_length (b :: rest) := add_nonneg h ih
    _ = _polyline_length (a :: b :: rest) := rfl

/-- Evaluation helper: a distance whose squared value is a perfect square. -/
theorem _dist_eq (a b : Point) (d : ℚ) (h0 : 0 ≤ d) (h : distSq a b = d ^ 2) :
    _dist a b = (d : ℝ) := by
  rw [_dist, h]
  push_cast
  exact Real.sqrt_sq (by exact_mod_cast h0)

/-- Unfolding of `extract_merged_polylines_in_rect`. -/
theorem extract_def (drawings : List Drawing) (rect : Rect) (t m : ℚ) :
    extract_merged_polylines_in_rect drawings rect t m =
      if (collectSegments drawings rect).isEmpty then [] else
      ((mergeAll (collectSegments drawings rect) t
          (List.range (collectSegments drawings rect).length)).filter fun p =>
        @decide ((m : ℝ) ≤ _polyline_length p) (Classical.propDecidable _)).mergeSort
        fun p q =>
          @decide (_polyline_length q ≤ _polyline_length p)
            (Classical.propDecidable _) :=
  rfl

/-- Evaluation helper: filtering and sorting a one-chain list whose chain
passes the length filter returns it unchanged. -/
theorem filterSort_singleton (m : ℚ) (p : Polyline)
    (h : (m : ℝ) ≤ _polyline_length p) :
    (([p].filter fun x =>
        @decide ((m : ℝ) ≤ _polyline_length x) (Classical.propDecidable _)).mergeSort
      fun x y =>
        @decide (_polyline_length y ≤ _polyline_length x)
          (Classical.propDecidable _)) = [p] := by
  have hd : (@decide ((m : ℝ) ≤ _polyline_length p) (Classical.propDecidable _)) =
      true := decide_eq_true h
  simp [List.filter, hd]

/-- C1: corrected (counterexample).  The source regex `\b\d{3}\+\d{2}\b`
carries a trailing word boundary the claim ignores: `"445+005"` matches the
claimed prefix-only pattern `\d{3}\+\d{2}` but not the source regex, so the
locator drops a token the claim says it returns. -/
theorem C1_counterexample :
    stationMatch ['4', '4', '5', '+', '0', '0', '5'] = false ∧
    specStationMatch ['4', '4', '5', '+', '0', '0', '5'] = true ∧
    find_station_text [⟨0, 0, 1, 1, ['4', '4', '5', '+', '0', '0', '5']⟩] = [] := by
  have h : stationMatch ['4', '4', '5', '+', '0', '0', '5'] = false := by decide
  refine ⟨h, by decide, ?_⟩
  simp [find_station_text, List.filter, h]

/-- C1 (amended): the station locator returns exactly the tokens whose text
matches `\b\d{3}\+\d{2}\b` at the start of the token: after the three
digits, `+` and two digits, the token must end or continue with a non-word
character; `"445+00"` matches, while `"45+00"`, `"445+005"` and
`"445+00extra"` do not. -/
theorem C1_station_regex :
    (∀ words : List Word,
      (find_station_text words).map Prod.fst =
        (words.map Word.text).filter stationMatch) ∧
    stationMatch ['4', '4', '5', '+', '0', '0'] = true ∧
    stationMatch ['4', '5', '+', '0', '0'] = false ∧
    stationMatch ['4', '4', '5', '+', '0', '0', '5'] = false ∧
    stationMatch ['4', '4', '5', '+', '0', '0', 'e', 'x', 't', 'r', 'a'] = false := by
  refine ⟨fun words => ?_, by decide, by decide, by decide, by decide⟩
  simp [find_station_text, List.filter_map, List.map_map, Function.comp_def]

/-- C4: with at least one delta between the sorted station `y0`s,
`section_height` is `max(200, sorted(deltas)[len(deltas) // 2] * 0.9)`; for
station `y0` positions `[100, 300, 520]` (deltas `[200, 220]`) it computes
to `200`; with a single station hit (no deltas) it is `page_height / 3`. -/
theorem C4_section_height :
    (∀ (d : ℚ) (ds : List ℚ) (H : ℚ),
      sectionHeightOf (d :: ds) H =
        max 200 (((d :: ds).mergeSort fun a b => decide (a ≤ b)).getD
          ((ds.length + 1) / 2) 0 * (9 / 10))) ∧
    (∀ H : ℚ, sectionHeightOf (deltasOf [100, 300, 520]) H = 200) ∧
    (∀ y H : ℚ, sectionHeightOf (deltasOf [y]) H = H / 3) := by
  refine ⟨fun d ds H => ?_, fun H => ?_, fun y H => ?_⟩
  · simp [sectionHeightOf, List.length_mergeSort]
  · have h : deltasOf [100, 300, 520] = [200, 220] := by norm_num [deltasOf]
    have hs : (([200, 220] : List ℚ).mergeSort fun a b => decide (a ≤ b)) =
        [200, 220] :=
      List.mergeSort_of_sorted (by norm_num)
    rw [h]
    norm_num [sectionHeightOf, hs]
  · simp [deltasOf, sectionHeightOf]

/-- C9: the reconstructor is deterministic — equal drawings, region,
tolerance and minimum length yield identical collected segments, identical
chain merges and an identical returned polyline list. -/
theorem C9_determinism (d1 d2 : List Drawing) (r1 r2 : Rect) (t1 t2 m1 m2 : ℚ)
    (hd : d1 = d2) (hr : r1 = r2) (ht : t1 = t2) (hm : m1 = m2) :
    collectSegments d1 r1 = collectSegments d2 r2 ∧
    mergeAll (collectSegments d1 r1) t1
        (List.range (collectSegments d1 r1).length) =
      mergeAll (collectSegments d2 r2) t2
        (List.range (collectSegments d2 r2).length) ∧
    extract_merged_polylines_in_rect d1 r1 t1 m1 =
      extract_merged_polylines_in_rect d2 r2 t2 m2 := by
  subst hd; subst hr; subst ht; subst hm
  exact ⟨rfl, rfl, rfl⟩

/-- C9 witness: determinism applied to the concrete merge-closure input. -/
theorem C9_witness :
    collectSegments drawingsMergeClosure regionWide =
      collectSegments drawingsMergeClosure regionWide ∧
    mergeAll (collectSegments drawingsMergeClosure regionWide) 1
        (List.range (collectSegments drawingsMergeClosure regionWide).length) =
      mergeAll (collectSegments drawingsMergeClosure regionWide) 1
        (List.range (collectSegments drawingsMergeClosure regionWide).length) ∧
    extract_merged_polylines_in_rect drawingsMergeClosure regionWide 1 0 =
      extract_merged_polylines_in_rect drawingsMergeClosure regionWide 1 0 :=
  C9_determinism drawingsMergeClosure drawingsMergeClosure regionWide regionWide
    1 1 0 0 rfl rfl rfl rfl

/-- Rectangle areas are nonnegative (widths and heights are clamped at
zero). -/
theorem Rect.get_area_nonneg (r : Rect) : 0 ≤ r.get_area :=
  mul_nonneg (le_max_left 0 _) (le_max_left 0 _)

/-- A rectangle with positive area is non-empty. -/
theorem Rect.nonEmpty_of_get_area_pos {r : Rect} (h : 0 < r.get_area) :
    r.nonEmpty = true := by
  have hw : 0 < r.width := by
    by_contra hw
    push_neg at hw
    have h0 : r.width = 0 := le_antisymm hw (le_max_left 0 _)
    rw [Rect.get_area, h0, zero_mul] at h
    exact lt_irrefl 0 h
  have hh : 0 < r.height := by
    by_contra hh
    push_neg at hh
    have h0 : r.height = 0 := le_antisymm hh (le_max_left 0 _)
    rw [Rect.get_area, h0, mul_zero] at h
    exact lt_irrefl 0 h
  rw [Rect.nonEmpty, Bool.and_eq_true, decide_eq_true_eq, decide_eq_true_eq]
  refine ⟨?_, ?_⟩
  · rcases lt_or_le r.x0 r.x1 with h' | h'
    · exact h'
    · rw [Rect.width, max_eq_left (sub_nonpos.mpr h')] at hw
      exact absurd hw (lt_irrefl 0)
  · rcases lt_or_le r.y0 r.y1 with h' | h'
    · exact h'
    · rw [Rect.height, max_eq_left (sub_nonpos.mpr h')] at hh
      exact absurd hh (lt_irrefl 0)

/-- C5: in the frame-deduplication walk, the next frame `fr` merges into the
previous kept frame `prev` — replacing it by the rectangle union — exactly
when the intersection area strictly exceeds 40% of the smaller of the two
areas; at or below the threshold, `fr` is appended as a distinct entry. -/
theorem C5_frame_merge (acc : List Rect) (prev fr : Rect) :
    (2 / 5 * min prev.get_area fr.get_area < (prev.inter fr).get_area →
      dedupStep (acc ++ [prev]) fr = acc ++ [prev.union fr]) ∧
    ((prev.inter fr).get_area ≤ 2 / 5 * min prev.get_area fr.get_area →
      dedupStep (acc ++ [prev]) fr = (acc ++ [prev]) ++ [fr]) := by
  constructor
  · intro h
    have hth : (0 : ℚ) ≤ 2 / 5 * min prev.get_area fr.get_area :=
      mul_nonneg (by norm_num)
        (le_min (Rect.get_area_nonneg prev) (Rect.get_area_nonneg fr))
    have hne : (prev.inter fr).nonEmpty = true :=
      Rect.nonEmpty_of_get_area_pos (lt_of_le_of_lt hth h)
    simp [dedupStep, List.getLast?_concat, List.dropLast_concat, hne,
      decide_eq_true h]
  · intro h
    have hd : decide (2 / 5 * min prev.get_area fr.get_area <
        (prev.inter fr).get_area) = false := decide_eq_false (not_lt.mpr h)
    simp [dedupStep, List.getLast?_concat, hd]

/-- C5 witness: two frames overlapping by half of the smaller area merge into
their union. -/
theorem C5_witness :
    (2 / 5 * min (Rect.get_area ⟨0, 0, 10, 10⟩) (Rect.get_area ⟨0, 5, 10, 15⟩) <
      (Rect.inter ⟨0, 0, 10, 10⟩ ⟨0, 5, 10, 15⟩).get_area) ∧
    dedupStep [⟨0, 0, 10, 10⟩] ⟨0, 5, 10, 15⟩ =
      [Rect.union ⟨0, 0, 10, 10⟩ ⟨0, 5, 10, 15⟩] := by
  have h : 2 / 5 * min (Rect.get_area ⟨0, 0, 10, 10⟩)
      (Rect.get_area ⟨0, 5, 10, 15⟩) <
      (Rect.inter ⟨0, 0, 10, 10⟩ ⟨0, 5, 10, 15⟩).get_area := by
    norm_num [Rect.get_area, Rect.width, Rect.height, Rect.inter]
  exact ⟨h, (C5_frame_merge [] ⟨0, 0, 10, 10⟩ ⟨0, 5, 10, 15⟩).1 h⟩

/-- C8: no-detection outcomes are empty results, never failures — zero
station hits give an empty frame list; zero collected segments (in
particular when every drawing lacks a rectangle or every item is
unrecognized and skipped) give an empty polyline list. -/
theorem C8_empty_results :
    (∀ (pw ph : ℚ) (words : List Word),
      find_station_text words = [] → detect_section_frames pw ph words = []) ∧
    (∀ (drawings : List Drawing) (rect : Rect) (t m : ℚ),
      collectSegments drawings rect = [] →
      extract_merged_polylines_in_rect drawings rect t m = []) ∧
    (∀ (drawings : List Drawing) (rect : Rect) (t m : ℚ),
      (∀ d ∈ drawings, d.rect = none ∨ ∀ it ∈ d.items, segmentsOfItem it = []) →
      extract_merged_polylines_in_rect drawings rect t m = []) := by
  have hext : ∀ (drawings : List Drawing) (rect : Rect) (t m : ℚ),
      collectSegments drawings rect = [] →
      extract_merged_polylines_in_rect drawings rect t m = [] := by
    intro drawings rect t m h
    rw [extract_def, h]
    simp
  refine ⟨fun pw ph words h => ?_, hext, fun drawings rect t m h => ?_⟩
  · simp [detect_section_frames, h]
  · apply hext
    rw [collectSegments, List.flatMap_eq_nil_iff]
    intro d hd
    rcases h d hd with h1 | h2
    · rw [h1]
    · cases hrect : d.rect with
      | none => rfl
      | some dr =>
        by_cases hint : dr.intersects rect
        · simp only [hint, if_true]
          rw [List.flatMap_eq_nil_iff]
          exact fun it hit => h2 it hit
        · simp [hint]

/-- C8 witness: the empty word list and a drawing whose only item is
malformed both give empty results. -/
theorem C8_witness :
    detect_section_frames 612 792 [] = [] ∧
    extract_merged_polylines_in_rect [⟨none, [.lBad]⟩] ⟨0, 0, 100, 100⟩ 2 80 = [] :=
  ⟨C8_empty_results.1 612 792 [] rfl,
    C8_empty_results.2.2 [⟨none, [.lBad]⟩] ⟨0, 0, 100, 100⟩ 2 80
      (by intro d hd; simp at hd; subst hd; left; rfl)⟩

/-- The segments collected from the merge-closure input. -/
theorem collect_mergeClosure :
    collectSegments drawingsMergeClosure regionWide =
      [((0, 0), (10, 0)), ((10, 1 / 2), (20, 0))] := by
  norm_num [drawingsMergeClosure, regionWide, collectSegments, Rect.intersects,
    Rect.inter, Rect.nonEmpty, segmentsOfItem]

/-- The chain merge on the merge-closure input: one 3-point chain through the
seed's endpoint `(10, 0)`. -/
theorem merge_mergeClosure :
    mergeAll [((0, 0), (10, 0)), ((10, 1 / 2), (20, 0))] 1
      (List.range ([((0, 0), (10, 0)), ((10, 1 / 2), (20, 0))] :
        List Segment).length) =
      [[(0, 0), (10, 0), (20, 0)]] := by
  have h1 : _round_point (0, 0) 1 = (0, 0) := by
    norm_num [_round_point, roundHalfEven]
  have h2 : _round_point (10, 0) 1 = (10, 0) := by
    norm_num [_round_point, roundHalfEven]
  have h3 : _round_point (10, 1 / 2) 1 = (10, 0) := by
    norm_num [_round_point, roundHalfEven]
  have h4 : _round_point (20, 0) 1 = (20, 0) := by
    norm_num [_round_point, roundHalfEven]
  norm_num [-Prod.mk_zero_zero, mergeAll, mergeAllAux, mergeSeed, growChain,
    growChainAux, next_connected, bucketList, distLe, distSq, List.range_succ,
    h1, h2, h3, h4]

/-- Evaluation of the reconstructor on the merge-closure input. -/
theorem extract_mergeClosure_eval :
    extract_merged_polylines_in_rect drawingsMergeClosure regionWide 1 0 =
      [[(0, 0), (10, 0), (20, 0)]] := by
  rw [extract_def, collect_mergeClosure, if_neg (by decide), merge_mergeClosure]
  exact filterSort_singleton 0 _
    (by simpa using _polyline_length_nonneg [(0, 0), (10, 0), (20, 0)])

/-- The merged polyline of the merge-closure input has length exactly 20. -/
theorem length_mergeClosure :
    _polyline_length [(0, 0), (10, 0), (20, 0)] = 20 := by
  have h1 : _dist ((0 : ℚ), (0 : ℚ)) ((10 : ℚ), (0 : ℚ)) = ((10 : ℚ) : ℝ) :=
    _dist_eq _ _ 10 (by norm_num) (by norm_num [distSq])
  have h2 : _dist ((10 : ℚ), (0 : ℚ)) ((20 : ℚ), (0 : ℚ)) = ((10 : ℚ) : ℝ) :=
    _dist_eq _ _ 10 (by norm_num) (by norm_num [distSq])
  simp only [_polyline_length, h1, h2]
  push_cast
  norm_num

/-- C2: corrected (counterexample).  On the two stated segments with
`endpoint_tol = 1` the reconstructor returns the single 3-point polyline
`[(0,0),(10,0),(20,0)]` of total length exactly 20 — not `10 + √100.25`
(≈ 20.0125) as claimed: the chain passes through the seed's endpoint
`(10,0)`, never through `(10,0.5)`. -/
theorem C2_counterexample :
    extract_merged_polylines_in_rect drawingsMergeClosure regionWide 1 0 =
      [[(0, 0), (10, 0), (20, 0)]] ∧
    _polyline_length [(0, 0), (10, 0), (20, 0)] = 20 ∧
    (20 : ℝ) ≠ 10 + Real.sqrt (401 / 4) := by
  refine ⟨extract_mergeClosure_eval, length_mergeClosure, ?_⟩
  have hlt : (10 : ℝ) < Real.sqrt (401 / 4) := by
    rw [show (10 : ℝ) = Real.sqrt 100 by
      rw [show (100 : ℝ) = 10 ^ 2 by norm_num, Real.sqrt_sq (by norm_num)]]
    exact Real.sqrt_lt_sqrt (by norm_num) (by norm_num)
  intro h
  linarith

/-- C2 (amended): the two segments `((0,0),(10,0))` and `((10,0.5),(20,0))`
with `endpoint_tol = 1` merge into the single 3-point polyline
`[(0,0),(10,0),(20,0)]` — not two separate polylines — because the
near-endpoints quantize to the same bucket and lie within tolerance; its
total length is exactly 20, the merged chain running through the seed's
endpoint `(10,0)` rather than `(10,0.5)`. -/
theorem C2_merge_closure :
    extract_merged_polylines_in_rect drawingsMergeClosure regionWide 1 0 =
      [[(0, 0), (10, 0), (20, 0)]] ∧
    _polyline_length [(0, 0), (10, 0), (20, 0)] = 20 :=
  ⟨extract_mergeClosure_eval, length_mergeClosure⟩

/-- The segments collected from the loop input. -/
theorem collect_loop :
    collectSegments drawingsLoop regionWide =
      [((0, 0), (10, 0)), ((10, 0), (10, 10)), ((10, 10), (0, 10)),
        ((0, 10), (0, 0))] := by
  norm_num [drawingsLoop, regionWide, collectSegments, Rect.intersects,
    Rect.inter, Rect.nonEmpty, segmentsOfItem]

/-- The chain merge on the loop input: one closed 5-point chain that starts
and ends at the seed's start `(0,0)`. -/
theorem merge_loop :
    mergeAll [((0, 0), (10, 0)), ((10, 0), (10, 10)), ((10, 10), (0, 10)),
        ((0, 10), (0, 0))] 1
      (List.range ([((0, 0), (10, 0)), ((10, 0), (10, 10)), ((10, 10), (0, 10)),
        ((0, 10), (0, 0))] : List Segment).length) =
      [[(0, 0), (10, 0), (10, 10), (0, 10), (0, 0)]] := by
  have h1 : _round_point (0, 0) 1 = (0, 0) := by
    norm_num [_round_point, roundHalfEven]
  have h2 : _round_point (10, 0) 1 = (10, 0) := by
    norm_num [_round_point, roundHalfEven]
  have h3 : _round_point (10, 10) 1 = (10, 10) := by
    norm_num [_round_point, roundHalfEven]
  have h4 : _round_point (0, 10) 1 = (0, 10) := by
    norm_num [_round_point, roundHalfEven]
  norm_num [-Prod.mk_zero_zero, mergeAll, mergeAllAux, mergeSeed, growChain,
    growChainAux, next_connected, bucketList, distLe, distSq, List.range_succ,
    h1, h2, h3, h4]

/-- Evaluation of the reconstructor on the loop input. -/
theorem extract_loop_eval :
    extract_merged_polylines_in_rect drawingsLoop regionWide 1 0 =
      [[(0, 0), (10, 0), (10, 10), (0, 10), (0, 0)]] := by
  rw [extract_def, collect_loop, if_neg (by decide), merge_loop]
  exact filterSort_singleton 0 _
    (by simpa using
      _polyline_length_nonneg [(0, 0), (10, 0), (10, 10), (0, 10), (0, 0)])

/-- C7: corrected (counterexample).  On a closed square loop the seed's
start point `(0,0)` appears twice in the merged sequence — at its head,
contributed by the chain, and at its end, where the forward growth returns
to it — refuting the claim that it appears exactly once. -/
theorem C7_counterexample :
    extract_merged_polylines_in_rect drawingsLoop regionWide 1 0 =
      [[(0, 0), (10, 0), (10, 10), (0, 10), (0, 0)]] ∧
    (collectSegments drawingsLoop regionWide).getD 0 default =
      ((0, 0), (10, 0)) ∧
    List.count ((0 : ℚ), (0 : ℚ))
      [((0 : ℚ), (0 : ℚ)), ((10 : ℚ), (0 : ℚ)), ((10 : ℚ), (10 : ℚ)),
        ((0 : ℚ), (10 : ℚ)), ((0 : ℚ), (0 : ℚ))] = 2 := by
  refine ⟨extract_loop_eval, by rw [collect_loop]; rfl, ?_⟩
  norm_num [List.count_cons, -Prod.mk_zero_zero, Prod.ext_iff]

/-- C7 (amended): the merged point sequence equals the reversed prepend list
without its last element — that element being exactly the seed's start
point, which the prepend part therefore never contributes — followed by the
forward chain, whose first two points are the seed's endpoints; the seed's
start can nevertheless appear more than once when the chain revisits it
(closed loops). -/
theorem C7_prepend_structure (segments : List Segment) (tol : ℚ)
    (unused : List ℕ) (seed : ℕ) :
    (mergeSeed segments tol unused seed).1 =
      (growChain segments tol
          (growChain segments tol (unused.erase seed)
            (segments.getD seed default).2).2
          (segments.getD seed default).1).1.reverse ++
        (segments.getD seed default).1 :: (segments.getD seed default).2 ::
          (growChain segments tol (unused.erase seed)
            (segments.getD seed default).2).1 ∧
    ((segments.getD seed default).1 ::
        (growChain segments tol
          (growChain segments tol (unused.erase seed)
            (segments.getD seed default).2).2
          (segments.getD seed default).1).1).reverse.dropLast =
      (growChain segments tol
          (growChain segments tol (unused.erase seed)
            (segments.getD seed default).2).2
          (segments.getD seed default).1).1.reverse ∧
    ((segments.getD seed default).1 ::
        (growChain segments tol
          (growChain segments tol (unused.erase seed)
            (segments.getD seed default).2).2
          (segments.getD seed default).1).1).reverse.getLast? =
      some (segments.getD seed default).1 := by
  refine ⟨?_, ?_, ?_⟩
  · simp [mergeSeed, List.reverse_cons, List.dropLast_concat]
  · simp [List.reverse_cons, List.dropLast_concat]
  · simp [List.reverse_cons, List.getLast?_concat]

/-- The segments collected from the consumed-segment input. -/
theorem collect_consumed :
    collectSegments drawingsConsumed regionWide =
      [((10, 0), (1, 1)), ((-1, -1), (-10, -20))] := by
  norm_num [drawingsConsumed, regionWide, collectSegments, Rect.intersects,
    Rect.inter, Rect.nonEmpty, segmentsOfItem]

/-- The chain merge on the consumed-segment input: the second segment is
consumed by the lookup but appended to no chain. -/
theorem merge_consumed :
    mergeAll [((10, 0), (1, 1)), ((-1, -1), (-10, -20))] 2
      (List.range ([((10, 0), (1, 1)), ((-1, -1), (-10, -20))] :
        List Segment).length) =
      [[(10, 0), (1, 1)]] := by
  have h1 : _round_point (10, 0) 2 = (10, 0) := by
    norm_num [_round_point, roundHalfEven]
  have h2 : _round_point (1, 1) 2 = (0, 0) := by
    norm_num [_round_point, roundHalfEven]
  have h3 : _round_point (-1, -1) 2 = (0, 0) := by
    norm_num [_round_point, roundHalfEven]
  have h4 : _round_point (-10, -20) 2 = (-10, -20) := by
    norm_num [_round_point, roundHalfEven]
  norm_num [-Prod.mk_zero_zero, -Prod.mk_one_one, mergeAll, mergeAllAux,
    mergeSeed, growChain, growChainAux, next_connected, bucketList, distLe,
    distSq, List.range_succ, h1, h2, h3, h4]

/-- Evaluation of the reconstructor on the consumed-segment input with
`min_length = 5`. -/
theorem extract_consumed_eval :
    extract_merged_polylines_in_rect drawingsConsumed regionWide 2 5 =
      [[(10, 0), (1, 1)]] := by
  rw [extract_def, collect_consumed, if_neg (by decide), merge_consumed]
  apply filterSort_singleton
  have hl : _polyline_length [((10 : ℚ), (0 : ℚ)), ((1 : ℚ), (1 : ℚ))] =
      _dist ((10 : ℚ), (0 : ℚ)) ((1 : ℚ), (1 : ℚ)) + 0 := by
    simp only [_polyline_length]
  rw [hl, add_zero, _dist, show distSq ((10 : ℚ), (0 : ℚ)) ((1 : ℚ), (1 : ℚ)) = 82
    by norm_num [distSq]]
  rw [Real.le_sqrt (by norm_num) (by norm_num)]
  push_cast
  norm_num

/-- C10: in the consumed-segment input, the second collected segment shares
the quantized bucket of the chain end `(1,1)` but both its endpoints are
farther than `endpoint_tol = 2` from it; it is consumed during the lookup
and appears in no returned polyline, although its own length exceeds
`min_length = 5`. -/
theorem C10_consumed_segment :
    extract_merged_polylines_in_rect drawingsConsumed regionWide 2 5 =
      [[(10, 0), (1, 1)]] ∧
    (((-1 : ℚ), (-1 : ℚ)), ((-10 : ℚ), (-20 : ℚ))) ∈
      collectSegments drawingsConsumed regionWide ∧
    _round_point ((-1 : ℚ), (-1 : ℚ)) 2 = _round_point ((1 : ℚ), (1 : ℚ)) 2 ∧
    distLe ((1 : ℚ), (1 : ℚ)) ((-1 : ℚ), (-1 : ℚ)) 2 = false ∧
    distLe ((1 : ℚ), (1 : ℚ)) ((-10 : ℚ), (-20 : ℚ)) 2 = false ∧
    (5 : ℝ) ≤ _dist ((-1 : ℚ), (-1 : ℚ)) ((-10 : ℚ), (-20 : ℚ)) ∧
    ((-1 : ℚ), (-1 : ℚ)) ∉ [((10 : ℚ), (0 : ℚ)), ((1 : ℚ), (1 : ℚ))] ∧
    ((-10 : ℚ), (-20 : ℚ)) ∉ [((10 : ℚ), (0 : ℚ)), ((1 : ℚ), (1 : ℚ))] := by
  refine ⟨extract_consumed_eval, ?_, ?_, ?_, ?_, ?_, ?_, ?_⟩
  · rw [collect_consumed]
    simp
  · norm_num [_round_point, roundHalfEven]
  · norm_num [distLe, distSq]
  · norm_num [distLe, distSq]
  · rw [_dist, show distSq ((-1 : ℚ), (-1 : ℚ)) ((-10 : ℚ), (-20 : ℚ)) = 442
      by norm_num [distSq]]
    rw [Real.le_sqrt (by norm_num) (by norm_num)]
    push_cast
    norm_num
  · norm_num [-Prod.mk_one_one, Prod.ext_iff]
  · norm_num [-Prod.mk_one_one, Prod.ext_iff]

/-- The segments collected from the single-segment input. -/
theorem collect_single :
    collectSegments drawingsSingle regionWide = [((0, 0), (10, 0))] := by
  norm_num [drawingsSingle, regionWide, collectSegments, Rect.intersects,
    Rect.inter, Rect.nonEmpty, segmentsOfItem]

/-- The chain merge on the single-segment input. -/
theorem merge_single :
    mergeAll [((0, 0), (10, 0))] 1
      (List.range ([((0, 0), (10, 0))] : List Segment).length) =
      [[(0, 0), (10, 0)]] := by
  have h1 : _round_point (0, 0) 1 = (0, 0) := by
    norm_num [_round_point, roundHalfEven]
  have h2 : _round_point (10, 0) 1 = (10, 0) := by
    norm_num [_round_point, roundHalfEven]
  norm_num [-Prod.mk_zero_zero, mergeAll, mergeAllAux, mergeSeed, growChain,
    growChainAux, next_connected, bucketList, distLe, distSq, List.range_succ,
    h1, h2]

/-- Evaluation of the reconstructor on the single-segment input. -/
theorem extract_single_eval :
    extract_merged_polylines_in_rect drawingsSingle regionWide 1 0 =
      [[(0, 0), (10, 0)]] := by
  rw [extract_def, collect_single, if_neg (by decide), merge_single]
  exact filterSort_singleton 0 _
    (by simpa using _polyline_length_nonneg [(0, 0), (10, 0)])

/-- C3: every polyline the reconstructor returns has total length at least
`min_length`, and the returned list is sorted non-increasing by length. -/
theorem C3_length_monotonicity (drawings : List Drawing) (rect : Rect)
    (endpoint_tol min_length : ℚ) :
    (∀ p ∈ extract_merged_polylines_in_rect drawings rect endpoint_tol
        min_length, (min_length : ℝ) ≤ _polyline_length p) ∧
    (extract_merged_polylines_in_rect drawings rect endpoint_tol
        min_length).Pairwise
      fun p q => _polyline_length q ≤ _polyline_length p := by
  rw [extract_def]
  by_cases h : (collectSegments drawings rect).isEmpty
  · simp [h]
  · rw [if_neg h]
    constructor
    · intro p hp
      rw [List.mem_mergeSort] at hp
      have hf := List.of_mem_filter hp
      rwa [decide_eq_true_eq] at hf
    · refine List.Pairwise.imp ?_ (List.sorted_mergeSort ?_ ?_ _)
      · intro a b hab
        rwa [decide_eq_true_eq] at hab
      · intro a b c h1 h2
        rw [decide_eq_true_eq] at h1 h2 ⊢
        exact le_trans h2 h1
      · intro a b
        rw [Bool.or_eq_true, decide_eq_true_eq, decide_eq_true_eq]
        exact (le_total (_polyline_length b) (_polyline_length a))

/-- C3 witness: the single-segment polyline the reconstructor returns for
`min_length = 0` has length at least 0. -/
theorem C3_witness :
    ((0 : ℚ) : ℝ) ≤ _polyline_length [(0, 0), (10, 0)] :=
  (C3_length_monotonicity drawingsSingle regionWide 1 0).1 [(0, 0), (10, 0)]
    (by rw [extract_single_eval]; exact List.mem_singleton_self _)

/-- Indices stored in the endpoint index are valid segment indices. -/
theorem bucketList_lt_length {segments : List Segment} {tol : ℚ} {key : Point}
    {i : ℕ} (h : i ∈ bucketList segments tol key) : i < segments.length := by
  rw [bucketList] at h
  obtain ⟨l, hl, hil⟩ := List.mem_flatten.mp h
  obtain ⟨j, hj, rfl⟩ := List.mem_map.mp hl
  rw [List.mem_range] at hj
  rcases List.mem_append.mp hil with h' | h' <;>
    · split at h'
      · rw [List.mem_singleton.mp h']
        exact hj
      · exact absurd h' (List.not_mem_nil i)

/-- A successful candidate lookup returns an unused, valid segment index. -/
theorem next_connected_some {segments : List Segment} {tol : ℚ}
    {unused : List ℕ} {current : Point} {nxt : ℕ}
    (h : next_connected segments tol unused current = some nxt) :
    nxt ∈ unused ∧ nxt < segments.length := by
  rw [next_connected] at h
  have h1 := List.find?_some h
  have h2 := List.mem_of_find?_eq_some h
  exact ⟨by simpa using h1, bucketList_lt_length h2⟩

/-- A `getD` at a valid index is a member. -/
theorem getD_mem_of_lt {l : List Segment} {i : ℕ} (h : i < l.length) :
    l.getD i default ∈ l := by
  rw [List.getD_eq_getElem?_getD, List.getElem?_eq_getElem h]
  exact List.getElem_mem h

/-- The relation `pairFromSegment` is symmetric. -/
theorem pairFromSegment_symm {segments : List Segment} {tol : ℚ} {p q : Point}
    (h : pairFromSegment segments tol p q) : pairFromSegment segments tol q p := by
  obtain ⟨s, hs, hc⟩ := h
  refine ⟨s, hs, ?_⟩
  tauto

/-- Every point the chain-growth loop appends extends the chain by a pair
drawn from a collected segment, one endpoint exact and the other within
tolerance. -/
theorem growChainAux_chain (segments : List Segment) (tol : ℚ) :
    ∀ (fuel : ℕ) (unused : List ℕ) (cur : Point),
      List.Chain' (pairFromSegment segments tol)
        (cur :: (growChainAux segments tol fuel unused cur).1) := by
  intro fuel
  induction fuel with
  | zero => intro unused cur; simp [growChainAux]
  | succ n ih =>
    intro unused cur
    simp only [growChainAux]
    split
    · simp
    · rename_i nxt heq
      have hlt := (next_connected_some heq).2
      have hseg := getD_mem_of_lt hlt
      split
      · rename_i h1
        refine List.chain'_cons.mpr ⟨⟨_, hseg, ?_⟩, ih _ _⟩
        exact Or.inr (Or.inr (Or.inl ⟨h1, rfl⟩))
      · split
        · rename_i h2
          refine List.chain'_cons.mpr ⟨⟨_, hseg, ?_⟩, ih _ _⟩
          exact Or.inr (Or.inr (Or.inr (Or.inl ⟨h2, rfl⟩)))
        · simp

/-- The chain-growth loop only removes indices from the unused set. -/
theorem growChainAux_snd_subset (segments : List Segment) (tol : ℚ) :
    ∀ (fuel : ℕ) (unused : List ℕ) (cur : Point),
      (growChainAux segments tol fuel unused cur).2 ⊆ unused := by
  intro fuel
  induction fuel with
  | zero => intro unused cur; simp [growChainAux]
  | succ n ih =>
    intro unused cur
    simp only [growChainAux]
    split
    · exact fun _ h => h
    · rename_i nxt heq
      split
      · exact fun i hi => List.erase_subset _ _ (ih _ _ hi)
      · split
        · exact fun i hi => List.erase_subset _ _ (ih _ _ hi)
        · exact fun i hi => List.erase_subset _ _ hi

/-- The structure of one merge iteration: the merged sequence is the
reversed backward-growth list followed by the seed's two endpoints and the
forward-growth list. -/
theorem mergeSeed_merged_eq (segments : List Segment) (tol : ℚ)
    (unused : List ℕ) (seed : ℕ) :
    (mergeSeed segments tol unused seed).1 =
      (growChain segments tol
          (growChain segments tol (unused.erase seed)
            (segments.getD seed default).2).2
          (segments.getD seed default).1).1.reverse ++
        (segments.getD seed default).1 :: (segments.getD seed default).2 ::
          (growChain segments tol (unused.erase seed)
            (segments.getD seed default).2).1 := by
  simp [mergeSeed, List.reverse_cons, List.dropLast_concat]

/-- One merge iteration only removes indices from the unused set. -/
theorem mergeSeed_snd_subset (segments : List Segment) (tol : ℚ)
    (unused : List ℕ) (seed : ℕ) :
    (mergeSeed segments tol unused seed).2 ⊆ unused := by
  rw [mergeSeed]
  intro i hi
  exact List.erase_subset _ _
    (growChainAux_snd_subset segments tol _ _ _
      (growChainAux_snd_subset segments tol _ _ _ hi))

/-- Every merged sequence the main loop produces has at least two points and
consecutive pairs drawn from collected segments up to tolerance. -/
theorem mergeAllAux_invariant (segments : List Segment) (tol : ℚ) :
    ∀ (fuel : ℕ) (unused : List ℕ),
      (∀ i ∈ unused, i < segments.length) →
      ∀ poly ∈ mergeAllAux segments tol fuel unused,
        2 ≤ poly.length ∧ List.Chain' (pairFromSegment segments tol) poly := by
  intro fuel
  induction fuel with
  | zero => intro unused hub poly hp; simp [mergeAllAux] at hp
  | succ n ih =>
    intro unused hub poly hp
    match unused, hp with
    | [], hp => simp [mergeAllAux] at hp
    | seed :: rest, hp =>
      simp only [mergeAllAux] at hp
      rcases List.mem_cons.mp hp with rfl | hp'
      · constructor
        · rw [mergeSeed_merged_eq]
          rw [List.length_append]
          simp only [List.length_cons]
          omega
        · rw [mergeSeed_merged_eq]
          have hseed : seed < segments.length :=
            hub seed (List.mem_cons_self seed rest)
          have hsmem := getD_mem_of_lt hseed
          have hf : List.Chain' (pairFromSegment segments tol)
              ((segments.getD seed default).2 ::
                (growChain segments tol ((seed :: rest).erase seed)
                  (segments.getD seed default).2).1) :=
            growChainAux_chain segments tol _ _ _
          have hb : List.Chain' (pairFromSegment segments tol)
              ((segments.getD seed default).1 ::
                (growChain segments tol
                  (growChain segments tol ((seed :: rest).erase seed)
                    (segments.getD seed default).2).2
                  (segments.getD seed default).1).1) :=
            growChainAux_chain segments tol _ _ _
          rw [List.chain'_append]
          refine ⟨?_, ?_, ?_⟩
          · rw [List.chain'_reverse]
            exact ((List.chain'_cons'.mp hb).2).imp
              fun a b hab => pairFromSegment_symm hab
          · refine List.chain'_cons.mpr ⟨⟨_, hsmem, Or.inl ⟨rfl, rfl⟩⟩, hf⟩
          · intro x hx y hy
            rw [List.getLast?_reverse] at hx
            simp only [List.head?_cons, Option.mem_def, Option.some.injEq] at hy
            subst hy
            have hfirst := (List.chain'_cons'.mp hb).1
            exact pairFromSegment_symm (hfirst x hx)
      · refine ih (mergeSeed segments tol (seed :: rest) seed).2 ?_ poly hp'
        intro i hi
        exact hub i (mergeSeed_snd_subset segments tol (seed :: rest) seed hi)

/-- C6: corrected (counterexample).  In the merge-closure run the returned
polyline's consecutive pair `((10,0),(20,0))` is not a collected segment
nor the reverse of one — the collected segments are `((0,0),(10,0))` and
`((10,0.5),(20,0))` — so consecutive pairs correspond to original segments
only up to the endpoint tolerance, not exactly. -/
theorem C6_counterexample :
    extract_merged_polylines_in_rect drawingsMergeClosure regionWide 1 0 =
      [[(0, 0), (10, 0), (20, 0)]] ∧
    ¬ ∃ s ∈ collectSegments drawingsMergeClosure regionWide,
        s = (((10 : ℚ), (0 : ℚ)), ((20 : ℚ), (0 : ℚ))) ∨
        s = (((20 : ℚ), (0 : ℚ)), ((10 : ℚ), (0 : ℚ))) := by
  refine ⟨extract_mergeClosure_eval, ?_⟩
  rw [collect_mergeClosure]
  rintro ⟨s, hs, h⟩
  simp only [List.mem_cons, List.not_mem_nil, or_false] at hs
  rcases hs with rfl | rfl <;> rcases h with h | h <;>
    · rw [Prod.ext_iff, Prod.ext_iff, Prod.ext_iff] at h
      norm_num at h

/-- C6 (amended): every returned polyline is an ordered sequence of at least
2 points, and every consecutive pair arises from a collected segment merged
in: one point of the pair is an endpoint of that segment taken exactly, and
the other point is within `endpoint_tol` of the segment's other endpoint
(both exact for the seed pair). -/
theorem C6_polyline_invariant (drawings : List Drawing) (rect : Rect)
    (endpoint_tol min_length : ℚ) :
    ∀ poly ∈ extract_merged_polylines_in_rect drawings rect endpoint_tol
        min_length,
      2 ≤ poly.length ∧
      List.Chain' (pairFromSegment (collectSegments drawings rect)
        endpoint_tol) poly := by
  intro poly hp
  rw [extract_def] at hp
  split at hp
  · exact absurd hp (List.not_mem_nil poly)
  · rw [List.mem_mergeSort] at hp
    have hm := List.mem_of_mem_filter hp
    rw [mergeAll] at hm
    exact mergeAllAux_invariant (collectSegments drawings rect) endpoint_tol
      _ _ (fun i hi => List.mem_range.mp hi) poly hm

/-- C6 witness: the polyline invariant applied to the single-segment run. -/
theorem C6_witness :
    2 ≤ ([((0 : ℚ), (0 : ℚ)), ((10 : ℚ), (0 : ℚ))] : Polyline).length ∧
    List.Chain' (pairFromSegment (collectSegments drawingsSingle regionWide) 1)
      [(0, 0), (10, 0)] :=
  C6_polyline_invariant drawingsSingle regionWide 1 0 [(0, 0), (10, 0)]
    (by rw [extract_single_eval]; exact List.mem_singleton_self _)

end XsTakeoff
